import Mathlib

/-! Verification development for the BGP audit dashboard core (src/main.py):
the file cache, the RIPEstat fetchers, the AS-path reconciliation analysis,
the AS-SET expansion and the routing-flow tree assembly. Python sets of ASNs
are modelled as Finset Int; Python dicts that the source iterates in
insertion order are modelled as association lists; upstream HTTP responses
are modelled as explicit inputs (none models a failed request). -/

namespace BgpAudit

/-! Sorting helpers. Python sorted() on a set of integers yields the unique
ascending duplicate-free enumeration; Python sorted(key=name) is a stable
sort whose comparisons use string code-point order. Both are modelled with
insertion sort, which agrees with any stable sort for the sorted-order
statements proved below. -/

/-- Canonical ascending enumeration of a multiset of integers. -/
def msort (s : Multiset Int) : List Int :=
  Quot.liftOn s (fun l => l.insertionSort (· ≤ ·)) (fun l₁ l₂ h =>
    @List.eq_of_perm_of_sorted Int (· ≤ ·) _ _ _
      ((List.perm_insertionSort _ l₁).trans ((Quotient.exact (Quot.sound h)).trans
        (List.perm_insertionSort _ l₂).symm))
      (List.sorted_insertionSort _ l₁) (List.sorted_insertionSort _ l₂))

/-- Model of Python sorted(s) for a set s of integers. -/
def sortFin (s : Finset Int) : List Int := msort s.1

/-- Code points of a string: the key under which Python compares strings. -/
def nameKey (s : String) : List Nat := s.data.map Char.toNat

/-! Model of the file-based JSON cache (src/main.py lines 35-79). -/

/-- Cache time-to-live: the single module-level constant of src/main.py line
39, 86400 seconds (24 hours). -/
def CACHE_TTL : Int := 86400

/-- TTL applied when a cache entry stored under the given key is read back.
The read path (src/main.py line 54) compares the entry age against the one
module constant CACHE_TTL whatever the key, so this function is constant in
its argument. -/
def cacheTTLFor (_key : String) : Int := CACHE_TTL

/-- State of the backing file of one cache entry: absent, present but
unreadable or invalid (json.load or the entry field accesses raise), or a
valid entry with its write timestamp and payload. -/
inductive CacheFile (α : Type) where
  | missing
  | corrupt
  | valid (ts : Int) (data : α)
deriving DecidableEq

/-- Shallow embedding of _read_cache (src/main.py lines 46-59) at time now,
returning the read result together with the state of the backing file
afterwards. A missing file returns None. A corrupt file makes the body of
the try block raise; the handler returns None and the file is left in
place. A valid entry older than CACHE_TTL is removed and None is returned;
otherwise the stored payload is returned. -/
def readCache {α : Type} (now : Int) (file : CacheFile α) : Option α × CacheFile α :=
  match file with
  | CacheFile.missing => (none, CacheFile.missing)
  | CacheFile.corrupt => (none, CacheFile.corrupt)
  | CacheFile.valid ts data =>
      if now - ts > CACHE_TTL then (none, CacheFile.missing)
      else (some data, CacheFile.valid ts data)

/-- Outcome of the filesystem steps attempted by _write_cache: everything
succeeds, opening or writing the entry file fails, or creating the cache
directory itself fails. -/
inductive WriteOutcome where
  | ok
  | openFailed
  | mkdirFailed
deriving DecidableEq

/-- Shallow embedding of the exception behaviour of _write_cache (src/main.py
lines 61-69). The os.makedirs call at line 63 runs before the try block, so
a directory-creation failure propagates to the caller; a failure while
opening or writing the entry file is caught at line 68 (the error is only
printed) and the function returns normally. -/
def writeCache (outcome : WriteOutcome) : Except String Unit :=
  match outcome with
  | WriteOutcome.ok => Except.ok ()
  | WriteOutcome.openFailed => Except.ok ()
  | WriteOutcome.mkdirFailed => Except.error "os.makedirs raised"

/-! Model of the RIPEstat fetchers (src/main.py lines 84-164). Each fetcher
is a function of its cache state and of the upstream response; it returns
its result together with the list of values it wrote to its cache key. -/

/-- Shallow embedding of _fetch_prefixes_for_asn (src/main.py lines
144-164). The upstream argument models the announced-prefixes response:
none stands for a request failure (exception, non-200 status or empty
body), some ps for a parsed response carrying the given prefix strings;
falsy (empty) entries are dropped by the check at line 158. The cache write
at line 163 runs unconditionally, so the result is always written, empty or
not. -/
def fetchPrefixesForAsn (cached : Option (List String)) (upstream : Option (List String)) :
    List String × List (List String) :=
  match cached with
  | some v => (v, [])
  | none =>
      let ps := (upstream.getD []).filter (fun s => s ≠ "")
      (ps, [ps])

/-! Parsing of looking-glass AS-path strings (src/main.py lines 122-135).
Python raw.split() splits on whitespace and drops empty tokens; int(tok)
accepts an optional sign followed by decimal digits. Characters are handled
as code-point lists so that every function below evaluates by kernel
reduction. -/

/-- Str.split() with no arguments: maximal runs of non-whitespace characters. -/
def splitWsAux : List Char → List Char → List (List Char)
  | [], acc => if acc = [] then [] else [acc.reverse]
  | c :: cs, acc =>
      if c.isWhitespace then
        (if acc = [] then splitWsAux cs [] else acc.reverse :: splitWsAux cs [])
      else splitWsAux cs (c :: acc)

/-- Whitespace tokenization of a raw string. -/
def splitWs (raw : String) : List (List Char) := splitWsAux raw.data []

/-- Place-value interpretation of a digit-character list (48 is the code
point of the zero digit). -/
def digitsVal : List Char → Nat
  | [] => 0
  | c :: cs => (c.toNat - 48) * 10 ^ cs.length + digitsVal cs

/-- Decimal parse of a token body: at least one character, all of them
decimal digits. -/
def parseDigits : List Char → Option Nat
  | [] => none
  | cs => if cs.all Char.isDigit then some (digitsVal cs) else none

/-- Python int() applied to one token. -/
def parseIntToken (cs : List Char) : Option Int :=
  match cs with
  | [] => none
  | '-' :: rest =>
      match parseDigits rest with
      | some n => some (-(n : Int))
      | none => none
  | '+' :: rest =>
      match parseDigits rest with
      | some n => some ((n : Int))
      | none => none
  | _ =>
      match parseDigits cs with
      | some n => some ((n : Int))
      | none => none

/-- Parse of one as_path string: every whitespace-separated token must parse
as an integer. The source (line 129) runs the whole list comprehension
inside try, so a single bad token rejects the entire path. -/
def parseTokens : List (List Char) → Option (List Int)
  | [] => some []
  | t :: ts =>
      match parseIntToken t, parseTokens ts with
      | some a, some rest => some (a :: rest)
      | _, _ => none

/-- Full parse of a raw as_path string. -/
def parsePath (raw : String) : Option (List Int) := parseTokens (splitWs raw)

/-- Deduplicating parse loop of _fetch_as_path (src/main.py lines 122-135):
iterate the as_path strings of all rrc peer records, skip empty strings,
discard any path with a non-integer token, and keep the first occurrence of
each distinct parsed path. The seen argument carries the paths kept so far. -/
def buildPaths : List String → List (List Int) → List (List Int)
  | [], _ => []
  | raw :: rest, seen =>
      if raw.data = [] then buildPaths rest seen
      else
        match parsePath raw with
        | none => buildPaths rest seen
        | some p =>
            if p ∈ seen then buildPaths rest seen
            else p :: buildPaths rest (p :: seen)

/-- Shallow embedding of _fetch_as_path (src/main.py lines 88-141) as a
function of its cache state, of the prefix list obtained from
_fetch_prefixes_for_asn, and of the looking-glass response for the sampled
first prefix (none models a failed request or unparseable body, some raws
the flattened as_path strings of all rrc peer records). The function always
writes its result to the cache: at line 109 when the prefix list is empty
and at line 140 otherwise. -/
def fetchAsPath (cached : Option (List (List Int))) (pfxs : List String)
    (lg : Option (List String)) : List (List Int) × List (List (List Int)) :=
  match cached with
  | some v => (v, [])
  | none =>
      if pfxs = [] then ([], [[]])
      else
        let paths := buildPaths (lg.getD []) []
        (paths, [paths])

/-- Shallow embedding of fetch_peeringdb (src/main.py lines 260-278),
generic in the record type. The upstream argument models the HTTP exchange:
none stands for a raised RequestException (the function returns [] and
writes nothing), some data for a 2xx response whose parsed data list is
returned and written to the cache, empty or not. -/
def fetchPeeringdb {α : Type} (cached : Option (List α)) (upstream : Option (List α)) :
    List α × List (List α) :=
  match cached with
  | some v => (v, [])
  | none =>
      match upstream with
      | some data => (data, [data])
      | none => ([], [])

/-! AS-path reconciliation analysis (src/main.py lines 186-230). The scan of
one path (the enumerate loop at lines 211-223) looks for the first index
i > 0 holding a local ASN whose predecessor is not itself local; a local
predecessor makes the loop continue with the next index. On success the
predecessor is the first hop and the loop stops (break at line 223). -/

/-- Scan state: acc holds the elements already passed, in reverse; prev is
the element before the current one. -/
def findFirstHopAux (ls : Finset Int) (acc : List Int) (prev : Int) :
    List Int → Option (Int × List Int)
  | [] => none
  | cur :: rest =>
      if cur ∈ ls ∧ prev ∉ ls then some (prev, acc.reverse)
      else findFirstHopAux ls (prev :: acc) cur rest

/-- First hop of a path: the first element at index i - 1 such that the
element at index i > 0 is local and the element at i - 1 is not, returned
together with the elements strictly before index i - 1. -/
def findFirstHop (ls : Finset Int) : List Int → Option (Int × List Int)
  | [] => none
  | a :: rest => findFirstHopAux ls [] a rest

/-- Python dict update of the peer-downstream map (lines 218-222): an
existing key keeps its position and its set is extended, a new key is
appended with the given set. -/
def addDownstreams : List (Int × Finset Int) → Int → Finset Int → List (Int × Finset Int)
  | [], peer, ds => [(peer, ds)]
  | (k, v) :: rest, peer, ds =>
      if k = peer then (k, v ∪ ds) :: rest
      else (k, v) :: addDownstreams rest peer ds

/-- Contribution of one path to the analysis state (lines 209-223): no first
hop leaves the state unchanged; otherwise the hop joins the direct-peer set
and every non-local element strictly before the hop joins its downstream
set. -/
def analyzeStep (ls : Finset Int) (st : Finset Int × List (Int × Finset Int))
    (path : List Int) : Finset Int × List (Int × Finset Int) :=
  match findFirstHop ls path with
  | none => st
  | some (hop, before) =>
      (insert hop st.1, addDownstreams st.2 hop (before.toFinset \ ls))

/-- Shallow embedding of _analyze_zenlayer_paths (src/main.py lines
186-230) as a function of the configured local ASNs and of the per-ASN
path lists delivered by _fetch_as_path. Returns the direct-peer set and the
peer-downstream map in dict insertion order. -/
def analyzeZenlayerPaths (localAsns : List Int) (fetchPaths : Int → List (List Int)) :
    Finset Int × List (Int × Finset Int) :=
  localAsns.foldl
    (fun st asn => (fetchPaths asn).foldl (analyzeStep localAsns.toFinset) st)
    (∅, [])

/-! AS-SET expansion (src/main.py lines 490-519). -/

/-- Member record produced by _expand_as_set. -/
structure IrrMember where
  asn : Nat
  name : String
deriving DecidableEq

/-- Parse of one direct-member token (line 512): the token must start with
the two characters AS followed by a non-empty run of decimal digits, which
int() turns into the member ASN. -/
def parseAsMember (item : String) : Option IrrMember :=
  match item.data with
  | 'A' :: 'S' :: rest =>
      match parseDigits rest with
      | some n => some (IrrMember.mk n item)
      | none => none
  | _ => none

/-- Shallow embedding of the member loop of _expand_as_set (src/main.py
lines 511-513) as a function of the directMembers list of the upstream
response: the first 50 entries are considered and those of the form
AS<digits> become members. -/
def expandAsSet (directMembers : List String) : List IrrMember :=
  (directMembers.take 50).filterMap parseAsMember

/-! Routing-flow tree assembly (src/main.py lines 521-782). The model takes
as inputs the data that get_routing_flow fetches: the network records
co-located at the resolved facilities (all_nets), the analysis results, and
the per-ASN registry lookup used for external peers. The verification
fields (verified, verification, shared_ix) are presentation-only and carry
no ASN or ordering content, so nodes model asn, name, info_type, category
and the child lists. -/

/-- Registry network record as used by the assembly: asn 0 models a missing
or null asn field (Python falsy check at line 572). -/
structure Net where
  asn : Int
  name : String
  info_type : String
deriving DecidableEq

/-- Leaf node of the assembled tree. -/
structure ChildNode where
  asn : Int
  name : String
  info_type : String
  category : String
deriving DecidableEq

/-- Direct-peer node of the assembled tree. -/
structure PeerNode where
  asn : Int
  name : String
  info_type : String
  category : String
  children : List ChildNode
  transit_children : List ChildNode
deriving DecidableEq

/-- Root of the assembled tree as returned by get_routing_flow. -/
structure RoutingTree where
  name : String
  asn : Int
  location : String
  direct_peer_count : Nat
  downstream_count : Nat
  transit_nested_count : Nat
  unresolved_count : Nat
  children : List PeerNode
  unresolved : List ChildNode
deriving DecidableEq

/-- Name-order relation on child nodes: Python sorted(key=name) compares
the name strings by code points. -/
def childNameLe (a b : ChildNode) : Prop := nameKey a.name ≤ nameKey b.name

instance : DecidableRel childNameLe :=
  fun a b => inferInstanceAs (Decidable (nameKey a.name ≤ nameKey b.name))

instance : IsTotal ChildNode childNameLe :=
  ⟨fun _ _ => le_total _ _⟩

instance : IsTrans ChildNode childNameLe :=
  ⟨fun _ _ _ h1 h2 => le_trans h1 h2⟩

/-- Stable name sort of a sibling group of child nodes. -/
def sortChildren (cs : List ChildNode) : List ChildNode := cs.insertionSort childNameLe

/-- Name-order relation on peer nodes. -/
def peerNameLe (a b : PeerNode) : Prop := nameKey a.name ≤ nameKey b.name

instance : DecidableRel peerNameLe :=
  fun a b => inferInstanceAs (Decidable (nameKey a.name ≤ nameKey b.name))

instance : IsTotal PeerNode peerNameLe :=
  ⟨fun _ _ => le_total _ _⟩

instance : IsTrans PeerNode peerNameLe :=
  ⟨fun _ _ _ h1 h2 => le_trans h1 h2⟩

/-- Stable name sort of the direct-peer list. -/
def sortPeers (ns : List PeerNode) : List PeerNode := ns.insertionSort peerNameLe

/-- Association-list update with Python-dict semantics: an existing key
keeps its position and receives the new value, a new key is appended. -/
def insertOrReplace : List (Int × Net) → Int → Net → List (Int × Net)
  | [], k, v => [(k, v)]
  | (k0, v0) :: rest, k, v =>
      if k0 = k then (k0, v) :: rest
      else (k0, v0) :: insertOrReplace rest k v

/-- Facility-network index construction (lines 569-573): every fetched
record with a truthy asn outside the local set is indexed by its asn. -/
def buildFacilityNetsAux (ls : Finset Int) : List Net → List (Int × Net) → List (Int × Net)
  | [], m => m
  | net :: rest, m =>
      buildFacilityNetsAux ls rest
        (if net.asn ≠ 0 ∧ net.asn ∉ ls then insertOrReplace m net.asn net else m)

/-- Facility-network index of get_routing_flow. -/
def buildFacilityNets (ls : Finset Int) (allNets : List Net) : List (Int × Net) :=
  buildFacilityNetsAux ls allNets []

/-- Lookup in the facility-network index. -/
def lookupNet : List (Int × Net) → Int → Option Net
  | [], _ => none
  | (k, v) :: rest, a => if k = a then some v else lookupNet rest a

/-- Set of ASNs indexed by facility_nets (line 575). -/
def facilityAsnSet (ls : Finset Int) (allNets : List Net) : Finset Int :=
  ((buildFacilityNets ls allNets).map Prod.fst).toFinset

/-- Python dict.get(hop, set()) on the peer-downstream map. -/
def dsLookup : List (Int × Finset Int) → Int → Finset Int
  | [], _ => ∅
  | (k, v) :: rest, a => if k = a then v else dsLookup rest a

/-- Default display data for an ASN without a registry record. -/
def defaultNet (hop : Int) : Net := Net.mk hop ("AS" ++ toString hop) ""

/-- Downstream-children loop for one direct peer (lines 632-646 and
687-701): iterate the ASN-sorted downstream-at-facility list, skip entries
already assigned or equal to the peer itself, skip entries without a
facility record, and turn each kept entry into a Downstream child while
marking it assigned. -/
def downstreamChildren (fl : Int → Option Net) (hop : Int) :
    List Int → Finset Int → List ChildNode × Finset Int
  | [], assigned => ([], assigned)
  | d :: rest, assigned =>
      if d ∈ assigned ∨ d = hop then downstreamChildren fl hop rest assigned
      else
        match fl d with
        | some net =>
            let res := downstreamChildren fl hop rest (insert d assigned)
            (ChildNode.mk d net.name net.info_type "Downstream" :: res.1, res.2)
        | none => downstreamChildren fl hop rest assigned

/-- Direct-peer node loop, common to the facility pass (lines 624-661) and
the external pass (lines 666-718): for each hop, in ascending ASN order,
collect its name-sorted downstream children, build the node via mkNode, and
mark the hop assigned. Nodes are kept in insertion order of the
direct_peer_nodes dict. -/
def buildPeerNodes (fl : Int → Option Net) (pds : List (Int × Finset Int))
    (facSet : Finset Int) (mkNode : Int → List ChildNode → PeerNode) :
    List Int → Finset Int → List PeerNode × Finset Int
  | [], assigned => ([], assigned)
  | hop :: rest, assigned =>
      let ds := sortFin ((dsLookup pds hop) ∩ facSet)
      let dsc := downstreamChildren fl hop ds assigned
      let node := mkNode hop (sortChildren dsc.1)
      let res := buildPeerNodes fl pds facSet mkNode rest (insert hop dsc.2)
      (node :: res.1, res.2)

/-- Node constructor for a facility-co-located direct peer (lines 650-661).
The source indexes facility_nets directly (the hop is always a key); the
default is never reached for hops drawn from the facility set. -/
def mkFacilityPeerNode (fl : Int → Option Net) (hop : Int) (cs : List ChildNode) : PeerNode :=
  let net := (fl hop).getD (defaultNet hop)
  PeerNode.mk hop net.name net.info_type "Direct Peer" cs []

/-- Node constructor for an external 1-hop direct peer (lines 666-718):
name and info_type come from the first record of a per-ASN registry query,
with AS<asn> and NSP fallbacks when the query returns nothing. -/
def mkExternalPeerNode (lookup : Int → List Net) (hop : Int) (cs : List ChildNode) : PeerNode :=
  match lookup hop with
  | n :: _ => PeerNode.mk hop n.name n.info_type "Direct Peer" cs []
  | [] => PeerNode.mk hop ("AS" ++ toString hop) "NSP" "Direct Peer" cs []

/-- First peer of the downstream map, in dict insertion order, whose
downstream set contains t and which owns a direct-peer node (lines
730-743). -/
def findClaimPeer (pds : List (Int × Finset Int)) (nodeAsns : List Int) (t : Int) : Option Int :=
  match pds with
  | [] => none
  | (p, ds) :: rest =>
      if t ∈ ds ∧ p ∈ nodeAsns then some p else findClaimPeer rest nodeAsns t

/-- Append a transit child to the node of the given peer ASN. -/
def addTransitChild : List PeerNode → Int → ChildNode → List PeerNode
  | [], _, _ => []
  | n :: rest, p, c =>
      if n.asn = p then
        PeerNode.mk n.asn n.name n.info_type n.category n.children
          (n.transit_children ++ [c]) :: rest
      else n :: addTransitChild rest p c

/-- Transit-assignment pass over the unassigned facility ASNs (lines
725-743) together with the construction of the Unresolved children (lines
752-761). The CPython set iterated at line 730 has unspecified order; each
element's outcome depends only on the fixed downstream map and node list,
and the model iterates in ascending ASN order, which also reproduces the
sorted(unresolved_asns) order of line 753 for the leftovers. -/
def assignTransit (fl : Int → Option Net) (pds : List (Int × Finset Int)) :
    List Int → List PeerNode → List PeerNode × List ChildNode
  | [], nodes => (nodes, [])
  | t :: rest, nodes =>
      match findClaimPeer pds (nodes.map PeerNode.asn) t with
      | some p =>
          let net := (fl t).getD (defaultNet t)
          assignTransit fl pds rest
            (addTransitChild nodes p
              (ChildNode.mk t net.name net.info_type "Transit Reachable"))
      | none =>
          let res := assignTransit fl pds rest nodes
          let net := (fl t).getD (defaultNet t)
          (res.1, ChildNode.mk t net.name net.info_type "Unresolved" :: res.2)

/-- Final name sort of the transit children of one node (lines 746-747). -/
def sortTransit (n : PeerNode) : PeerNode :=
  PeerNode.mk n.asn n.name n.info_type n.category n.children
    (sortChildren n.transit_children)

/-- Core of the tree assembly of get_routing_flow (src/main.py lines
606-761), from the direct-peer pass over sorted(facility_direct) at line
624 to the Unresolved children of lines 752-761: given the local set, the
facility-network lookup and ASN set, and the analysis results, produce the
direct-peer node list (in dict insertion order, transit children
name-sorted) together with the Unresolved children. -/
def assembleCore (ls : Finset Int) (fl : Int → Option Net) (facSet : Finset Int)
    (directPeers : Finset Int) (pds : List (Int × Finset Int))
    (peerNetLookup : Int → List Net) : List PeerNode × List ChildNode :=
  let p1 := buildPeerNodes fl pds facSet (mkFacilityPeerNode fl)
      (sortFin (directPeers ∩ facSet)) ls
  let p2 := buildPeerNodes fl pds facSet (mkExternalPeerNode peerNetLookup)
      (sortFin ((directPeers \ facSet) \ ls)) p1.2
  let p3 := assignTransit fl pds (sortFin (facSet \ p2.2)) (p1.1 ++ p2.1)
  (p3.1.map sortTransit, p3.2)

/-- Shallow embedding of the tree assembly of get_routing_flow (src/main.py
lines 556-782) given the resolved inputs: local ASNs from the config,
co-located network records, analysis results, and the per-ASN registry
lookup for external peers. -/
def assembleTree (localAsns : List Int) (allNets : List Net) (directPeers : Finset Int)
    (pds : List (Int × Finset Int)) (peerNetLookup : Int → List Net)
    (location : String) : RoutingTree :=
  let ls := localAsns.toFinset
  let core := assembleCore ls (lookupNet (buildFacilityNets ls allNets))
      (facilityAsnSet ls allNets) directPeers pds peerNetLookup
  let directList := sortPeers core.1
  RoutingTree.mk
    ("Zenlayer (" ++ String.intercalate ", " (localAsns.map (fun a => "AS" ++ toString a)) ++ ")")
    (localAsns.headD 0) location directList.length
    ((directList.map (fun p => p.children.length)).sum)
    ((directList.map (fun p => p.transit_children.length)).sum)
    (core.2.length) directList core.2

/-- Endpoint behaviour of get_routing_flow after config load (lines
544-554): an empty resolved facility-id list yields the structured error
value of line 554, otherwise the assembled tree. -/
def getRoutingFlow (targetFacIds : List Int) (localAsns : List Int) (allNets : List Net)
    (directPeers : Finset Int) (pds : List (Int × Finset Int))
    (peerNetLookup : Int → List Net) (location : String) : Except String RoutingTree :=
  if targetFacIds = [] then Except.error "No facilities found for location"
  else Except.ok (assembleTree localAsns allNets directPeers pds peerNetLookup location)

/-! ASN extraction helpers over assembled trees, used to state the
partition and ordering properties. -/

/-- ASNs of a list of child nodes. -/
def childAsns (cs : List ChildNode) : List Int := cs.map ChildNode.asn

/-- ASNs of all Downstream children across a list of peer nodes. -/
def allChildAsns (ns : List PeerNode) : List Int :=
  (ns.map (fun p => childAsns p.children)).flatten

/-- ASNs of all Transit Reachable children across a list of peer nodes. -/
def allTransitAsns (ns : List PeerNode) : List Int :=
  (ns.map (fun p => childAsns p.transit_children)).flatten

/-- ASNs of the Direct Peer nodes. -/
def directAsnList (t : RoutingTree) : List Int := t.children.map PeerNode.asn

/-- ASNs of all Downstream children of the tree. -/
def downstreamAsnList (t : RoutingTree) : List Int := allChildAsns t.children

/-- ASNs of all Transit Reachable children of the tree. -/
def transitAsnList (t : RoutingTree) : List Int := allTransitAsns t.children

/-- ASNs of the Unresolved group. -/
def unresolvedAsnList (t : RoutingTree) : List Int := childAsns t.unresolved

/-- All ASNs appearing in the tree below the root. -/
def treeAsnList (t : RoutingTree) : List Int :=
  directAsnList t ++ downstreamAsnList t ++ transitAsnList t ++ unresolvedAsnList t

/-! Concrete instances used to settle the partition and ordering claims. -/

/-- Network records of a two-network facility. -/
def c1Nets : List Net := [Net.mk 100 "NetA" "NSP", Net.mk 200 "NetB" "NSP"]

/-- Registry lookup for the external peer AS300. -/
def c1Lookup (a : Int) : List Net :=
  if a = 300 then [Net.mk 300 "ExtPeer" "NSP"] else []

/-- Tree assembled for local ASN 1, co-located networks AS100 and AS200,
global direct peers 100, 200 and 300, and AS200 in the downstream set of
AS100. -/
def c1Tree : RoutingTree :=
  assembleTree [1] c1Nets {100, 200, 300} [(100, {200})] c1Lookup "Denver"

/-- Network records whose ASN order is the reverse of their name order. -/
def c6Nets : List Net := [Net.mk 100 "Zebra" "NSP", Net.mk 200 "Alpha" "NSP"]

/-- Tree assembled with no direct peers at all, so both networks land in
the Unresolved group. -/
def c6Tree : RoutingTree := assembleTree [1] c6Nets ∅ [] (fun _ => []) "Denver"

/-! Helper lemmas. -/

theorem sortFin_sorted (s : Finset Int) : List.Sorted (· ≤ ·) (sortFin s) := by
  rcases s with ⟨m, hm⟩
  induction m using Quot.inductionOn with
  | h l => exact List.sorted_insertionSort _ l

theorem mem_sortFin {s : Finset Int} {a : Int} : a ∈ sortFin s ↔ a ∈ s := by
  rcases s with ⟨m, hm⟩
  induction m using Quot.inductionOn with
  | h l =>
    constructor
    · intro h
      exact Finset.mem_mk.mpr ((List.perm_insertionSort _ l).mem_iff.mp h)
    · intro h
      exact (List.perm_insertionSort _ l).mem_iff.mpr (Finset.mem_mk.mp h)

theorem sortFin_nodup (s : Finset Int) : (sortFin s).Nodup := by
  rcases s with ⟨m, hm⟩
  induction m using Quot.inductionOn with
  | h l =>
    refine (@List.perm_insertionSort Int (· ≤ ·) _ l).symm.nodup ?_
    simpa [Multiset.quot_mk_to_coe] using hm

theorem sortFin_toFinset (s : Finset Int) : (sortFin s).toFinset = s := by
  ext a
  simp [List.mem_toFinset, mem_sortFin]

theorem mem_buildPaths {p : List Int} :
    ∀ (raws : List String) (seen : List (List Int)), p ∈ buildPaths raws seen →
      ∃ raw ∈ raws, parsePath raw = some p := by
  intro raws
  induction raws with
  | nil =>
      intro seen h
      simp [buildPaths] at h
  | cons raw rest ih =>
      intro seen h
      unfold buildPaths at h
      by_cases hd : raw.data = []
      · rw [if_pos hd] at h
        obtain ⟨a, ha, hpa⟩ := ih _ h
        exact ⟨a, List.mem_cons_of_mem _ ha, hpa⟩
      · rw [if_neg hd] at h
        cases hpp : parsePath raw with
        | none =>
            rw [hpp] at h
            obtain ⟨a, ha, hpa⟩ := ih _ h
            exact ⟨a, List.mem_cons_of_mem _ ha, hpa⟩
        | some q =>
            rw [hpp] at h
            dsimp only at h
            by_cases hs : q ∈ seen
            · rw [if_pos hs] at h
              obtain ⟨a, ha, hpa⟩ := ih _ h
              exact ⟨a, List.mem_cons_of_mem _ ha, hpa⟩
            · rw [if_neg hs] at h
              rcases List.mem_cons.mp h with rfl | htl
              · exact ⟨raw, List.mem_cons_self _ _, hpp⟩
              · obtain ⟨a, ha, hpa⟩ := ih _ htl
                exact ⟨a, List.mem_cons_of_mem _ ha, hpa⟩

theorem findFirstHopAux_eq_none (ls : Finset Int) :
    ∀ (l acc : List Int) (prev : Int),
      (∀ pr ∈ (prev :: l).zip l, pr.2 ∈ ls → pr.1 ∈ ls) →
      findFirstHopAux ls acc prev l = none := by
  intro l
  induction l with
  | nil =>
      intro acc prev _
      rfl
  | cons cur rest ih =>
      intro acc prev h
      have h1 : cur ∈ ls → prev ∈ ls := by
        intro hc
        exact h (prev, cur) (by simp) hc
      unfold findFirstHopAux
      rw [if_neg (by rintro ⟨hc, hp⟩; exact hp (h1 hc))]
      refine ih (prev :: acc) cur ?_
      intro pr hpr hm
      exact h pr (by simpa using Or.inr (by simpa using hpr)) hm

theorem findFirstHop_eq_none (ls : Finset Int) (path : List Int)
    (h : ∀ pr ∈ path.zip path.tail, pr.2 ∈ ls → pr.1 ∈ ls) :
    findFirstHop ls path = none := by
  cases path with
  | nil => rfl
  | cons a rest => exact findFirstHopAux_eq_none ls rest [] a h

/-! Claim C2. -/

/-- C2: the path-reconciliation analysis is a pure, hence deterministic,
function of the configured local ASNs and of the per-ASN path lists, and on
the spec's examples: paths [[3356,1299,21859]] with local set containing
just 21859 give direct-peer set containing just 1299 with downstream map
entry (1299, singleton 3356); the single path [21859] contributes no direct
peer and no downstream entries; the single path [174,21859] gives direct
peer 174 with an empty downstream set recorded for 174. -/
theorem c2_analysis_examples :
    analyzeZenlayerPaths [21859] (fun a => if a = 21859 then [[3356, 1299, 21859]] else []) =
      ({1299}, [(1299, {3356})]) ∧
    analyzeZenlayerPaths [21859] (fun a => if a = 21859 then [[21859]] else []) =
      (∅, []) ∧
    analyzeZenlayerPaths [21859] (fun a => if a = 21859 then [[174, 21859]] else []) =
      ({174}, [(174, ∅)]) := by
  refine ⟨by decide, by decide, by decide⟩

/-! Claim C3. -/

/-- C3 fails on the code: in the path [21859, 4229, 174, 21859] with local
ASNs 21859 and 4229, the first occurrence of a local ASN at an index
greater than zero is 4229 at index 1, and it is immediately preceded by the
local ASN 21859; the claim says such a path is skipped entirely, yet the
analysis continues scanning (the continue at line 215 only advances the
inner loop), reaches the second occurrence of 21859 at index 3, and records
174 as a direct peer. -/
theorem c3_counterexample :
    ((21859 : Int) ∈ ([21859, 4229] : List Int).toFinset ∧
      (4229 : Int) ∈ ([21859, 4229] : List Int).toFinset) ∧
    analyzeZenlayerPaths [21859, 4229]
      (fun a => if a = 21859 then [[21859, 4229, 174, 21859]] else []) =
      ({174}, [(174, ∅)]) ∧
    (({174}, [(174, (∅ : Finset Int))]) ≠
      ((∅ : Finset Int), ([] : List (Int × Finset Int)))) := by
  refine ⟨by decide, by decide, by decide⟩

/-- C3 (amended): when the first occurrence of a local ASN at index > 0 is
immediately preceded by another local ASN, only that occurrence is skipped
and scanning continues; a path contributes no direct peer and no downstream
entries precisely when no occurrence of a local ASN at positive index has a
non-local predecessor — formally, if every adjacent pair whose second
element is local also has a local first element, the path leaves the
analysis state unchanged. -/
theorem c3_amended (localAsns : List Int) (path : List Int)
    (st : Finset Int × List (Int × Finset Int))
    (h : ∀ pr ∈ path.zip path.tail, pr.2 ∈ localAsns.toFinset → pr.1 ∈ localAsns.toFinset) :
    analyzeStep localAsns.toFinset st path = st := by
  unfold analyzeStep
  rw [findFirstHop_eq_none _ _ h]

/-- C3 witness: a concrete all-local path leaves a concrete analysis state
unchanged. -/
theorem c3_amended_witness :
    analyzeStep ([21859, 4229] : List Int).toFinset ({5}, [(5, {6})]) [21859, 4229] =
      ({5}, [(5, {6})]) :=
  c3_amended [21859, 4229] [21859, 4229] ({5}, [(5, {6})]) (by decide)

/-! Claim C4. -/

/-- C4 fails on the code: the TTL applied to registry (pdb) cache keys and
the TTL applied to path-observation (aspath) cache keys are one and the
same module constant of 86400 seconds, so the two TTL values are not
distinct, and neither is a multi-day value. -/
theorem c4_counterexample :
    cacheTTLFor "pdb" = cacheTTLFor "aspath" ∧ CACHE_TTL = 86400 :=
  ⟨rfl, rfl⟩

/-- C4 (amended): a single global TTL of 86400 seconds (24 hours) governs
every cache key — registry and path-observation keys alike — and a valid
entry reads back as absent exactly when its age exceeds that constant. -/
theorem c4_amended (k1 k2 : String) (now ts : Int) (d : Nat) :
    cacheTTLFor k1 = cacheTTLFor k2 ∧ cacheTTLFor k1 = 86400 ∧
    ((readCache now (CacheFile.valid ts d)).1 = none ↔ now - ts > CACHE_TTL) := by
  refine ⟨rfl, rfl, ?_⟩
  by_cases h : now - ts > CACHE_TTL <;> simp [readCache, h]

/-- C4 witness: the amended statement at concrete keys and a concretely
expired entry. -/
theorem c4_amended_witness :
    cacheTTLFor "pdb" = cacheTTLFor "aspath" ∧ cacheTTLFor "pdb" = 86400 ∧
    ((readCache 100000 (CacheFile.valid 0 (7 : Nat))).1 = none ↔ (100000 : Int) - 0 > CACHE_TTL) :=
  c4_amended "pdb" "aspath" 100000 0 7

/-! Claim C5. -/

/-- C5 fails on the code: a prefix fetch whose upstream answered with an
empty prefix list writes that empty list to its cache key (the write at
line 163 is unconditional), and an AS-path fetch that found no prefixes
writes the empty path list to its cache key (line 109). -/
theorem c5_counterexample :
    (fetchPrefixesForAsn none (some [])).1 = [] ∧
    (fetchPrefixesForAsn none (some [])).2 ≠ [] ∧
    (fetchAsPath none [] (some [])).1 = [] ∧
    (fetchAsPath none [] (some [])).2 ≠ [] := by
  refine ⟨rfl, by decide, rfl, by decide⟩

/-- C5 (amended): on a cache miss the prefix fetcher and the AS-path
fetcher write exactly their result to the cache, empty or not — including
after an upstream failure; only the registry fetcher refrains from caching
when the request fails, while caching a successful response even when its
data list is empty. -/
theorem c5_amended (up : Option (List String)) (pfxs : List String)
    (lg : Option (List String)) (d : List Nat) :
    (fetchPrefixesForAsn none up).2 = [(fetchPrefixesForAsn none up).1] ∧
    (fetchAsPath none pfxs lg).2 = [(fetchAsPath none pfxs lg).1] ∧
    (fetchPeeringdb (none : Option (List Nat)) none) = ([], []) ∧
    (fetchPeeringdb (none : Option (List Nat)) (some d)).2 = [d] := by
  refine ⟨rfl, ?_, rfl, rfl⟩
  unfold fetchAsPath
  by_cases h : pfxs = [] <;> simp [h]

/-- C5 witness: the amended statement at concrete inputs. -/
theorem c5_amended_witness :
    (fetchPrefixesForAsn none (some ["192.0.2.0/24"])).2 =
      [(fetchPrefixesForAsn none (some ["192.0.2.0/24"])).1] ∧
    (fetchAsPath none ["192.0.2.0/24"] none).2 = [(fetchAsPath none ["192.0.2.0/24"] none).1] ∧
    (fetchPeeringdb (none : Option (List Nat)) none) = ([], []) ∧
    (fetchPeeringdb (none : Option (List Nat)) (some [5])).2 = [[5]] :=
  c5_amended (some ["192.0.2.0/24"]) ["192.0.2.0/24"] none [5]

/-! Claim C7. -/

/-- C7 fails on the code: reading a corrupt cache entry returns absent, but
the corrupt file is not removed — the exception handler at line 58 returns
None without deleting anything; only the expiry branch at line 55 removes a
file. -/
theorem c7_counterexample :
    (readCache 0 (CacheFile.corrupt : CacheFile Nat)).1 = none ∧
    (readCache 0 (CacheFile.corrupt : CacheFile Nat)).2 ≠ CacheFile.missing := by
  refine ⟨rfl, by decide⟩

/-- C7 (amended): a corrupt cache entry behaves as a miss but is left in
place; an expired valid entry is the one that is removed, and a fresh valid
entry is served. -/
theorem c7_amended {α : Type} (now ts : Int) (d : α) :
    readCache now (CacheFile.corrupt : CacheFile α) = (none, CacheFile.corrupt) ∧
    (now - ts > CACHE_TTL → readCache now (CacheFile.valid ts d) = (none, CacheFile.missing)) ∧
    (¬ now - ts > CACHE_TTL →
      readCache now (CacheFile.valid ts d) = (some d, CacheFile.valid ts d)) := by
  refine ⟨rfl, ?_, ?_⟩ <;> intro h <;> simp [readCache, h]

/-- C7 witness: the amended statement evaluated on a corrupt entry and on a
concretely expired entry. -/
theorem c7_amended_witness :
    readCache 100000 (CacheFile.corrupt : CacheFile Nat) = (none, CacheFile.corrupt) ∧
    readCache 100000 (CacheFile.valid 0 (7 : Nat)) = (none, CacheFile.missing) :=
  ⟨(c7_amended 100000 0 (7 : Nat)).1, (c7_amended 100000 0 (7 : Nat)).2.1 (by decide)⟩

/-! Claim C8. -/

/-- C8: evaluation at the failing input. The os.makedirs call at line 63 of
_write_cache runs before the try block, so a directory-creation failure
raises to the caller, while a failure opening or writing the entry file is
caught at line 68 and the function returns normally. -/
theorem c8_write_failure_eval :
    writeCache WriteOutcome.mkdirFailed = Except.error "os.makedirs raised" ∧
    writeCache WriteOutcome.openFailed = Except.ok () ∧
    writeCache WriteOutcome.ok = Except.ok () :=
  ⟨rfl, rfl, rfl⟩

/-! Claim C9. -/

/-- C9: every path returned by an AS-path fetch is the complete integer
parse of one looking-glass as_path entry — a path entry with a non-integer
token is discarded entirely and no prefix of a partially parsed path is
ever kept, since membership in the result implies membership in the set of
full parses of the raw entries. -/
theorem c9_paths_fully_parsed (pfxs : List String) (lg : Option (List String))
    (p : List Int) (hp : p ∈ (fetchAsPath none pfxs lg).1) :
    p ∈ (lg.getD []).filterMap parsePath := by
  unfold fetchAsPath at hp
  by_cases h : pfxs = []
  · rw [if_pos h] at hp
    simp at hp
  · rw [if_neg h] at hp
    obtain ⟨raw, hraw, hpa⟩ := mem_buildPaths _ _ hp
    exact List.mem_filterMap.mpr ⟨raw, hraw, hpa⟩

/-- C9 witness: with a looking-glass response containing one malformed and
one well-formed entry, the well-formed one is returned and is a complete
parse. -/
theorem c9_paths_fully_parsed_witness :
    [174, 21859] ∈ (["3356 foo 21859", "174 21859"] : List String).filterMap parsePath :=
  c9_paths_fully_parsed ["192.0.2.0/24"] (some ["3356 foo 21859", "174 21859"])
    [174, 21859] (by decide)

/-! Claim C10. -/

/-- C10: the AS-SET expansion returns at most 50 members; entries beyond
the first 50 direct members of the upstream response are dropped before
parsing; and every returned member is parsed from one of the first 50
direct-member tokens, of the form AS followed by digits. -/
theorem c10_expand_as_set (directMembers : List String) :
    (expandAsSet directMembers).length ≤ 50 ∧
    expandAsSet directMembers = expandAsSet (directMembers.take 50) ∧
    ∀ m ∈ expandAsSet directMembers,
      ∃ item ∈ directMembers.take 50, parseAsMember item = some m := by
  refine ⟨?_, ?_, ?_⟩
  · exact le_trans (List.length_filterMap_le _ _) (List.length_take_le 50 directMembers)
  · unfold expandAsSet
    rw [List.take_take]
    norm_num
  · intro m hm
    exact List.mem_filterMap.mp hm

/-- C10 witness: the bound and the truncation stability at a concrete
member list. -/
theorem c10_expand_as_set_witness :
    (expandAsSet ["AS100", "bogus", "AS", "AS7x", "AS007"]).length ≤ 50 ∧
    expandAsSet ["AS100", "bogus", "AS", "AS7x", "AS007"] =
      expandAsSet (["AS100", "bogus", "AS", "AS7x", "AS007"].take 50) :=
  ⟨(c10_expand_as_set ["AS100", "bogus", "AS", "AS7x", "AS007"]).1,
    (c10_expand_as_set ["AS100", "bogus", "AS", "AS7x", "AS007"]).2.1⟩

/-! Helper lemmas about the facility index and the ASN aggregators. -/

theorem childAsns_cons (c : ChildNode) (cs : List ChildNode) :
    childAsns (c :: cs) = c.asn :: childAsns cs := rfl

theorem allChildAsns_nil : allChildAsns [] = [] := rfl

theorem allChildAsns_cons (n : PeerNode) (ns : List PeerNode) :
    allChildAsns (n :: ns) = childAsns n.children ++ allChildAsns ns := by
  simp [allChildAsns]

theorem allChildAsns_append (ns₁ ns₂ : List PeerNode) :
    allChildAsns (ns₁ ++ ns₂) = allChildAsns ns₁ ++ allChildAsns ns₂ := by
  simp [allChildAsns]

theorem allTransitAsns_nil : allTransitAsns [] = [] := rfl

theorem allTransitAsns_cons (n : PeerNode) (ns : List PeerNode) :
    allTransitAsns (n :: ns) = childAsns n.transit_children ++ allTransitAsns ns := by
  simp [allTransitAsns]

theorem allTransitAsns_append (ns₁ ns₂ : List PeerNode) :
    allTransitAsns (ns₁ ++ ns₂) = allTransitAsns ns₁ ++ allTransitAsns ns₂ := by
  simp [allTransitAsns]

theorem allChildAsns_perm {ns₁ ns₂ : List PeerNode} (h : ns₁.Perm ns₂) :
    (allChildAsns ns₁).Perm (allChildAsns ns₂) := by
  unfold allChildAsns
  exact (h.map _).flatten

theorem allTransitAsns_perm {ns₁ ns₂ : List PeerNode} (h : ns₁.Perm ns₂) :
    (allTransitAsns ns₁).Perm (allTransitAsns ns₂) := by
  unfold allTransitAsns
  exact (h.map _).flatten

theorem keys_insertOrReplace (m : List (Int × Net)) (k : Int) (v : Net) (x : Int) :
    x ∈ (insertOrReplace m k v).map Prod.fst ↔ x ∈ m.map Prod.fst ∨ x = k := by
  induction m with
  | nil => simp [insertOrReplace]
  | cons p rest ih =>
      obtain ⟨k0, v0⟩ := p
      by_cases h : k0 = k
      · subst h
        simp [insertOrReplace]
        tauto
      · simp [insertOrReplace, h, ih]
        tauto

theorem lookupNet_eq_none (m : List (Int × Net)) (a : Int) :
    lookupNet m a = none ↔ a ∉ m.map Prod.fst := by
  induction m with
  | nil => simp [lookupNet]
  | cons p rest ih =>
      obtain ⟨k, v⟩ := p
      by_cases h : k = a
      · subst h
        simp [lookupNet]
      · simp [lookupNet, h, ih]
        exact fun _ => fun he => h he.symm

theorem mem_keys_buildFacilityNetsAux (ls : Finset Int) (x : Int) :
    ∀ (nets : List Net) (m : List (Int × Net)),
      (x ∈ (buildFacilityNetsAux ls nets m).map Prod.fst ↔
        x ∈ m.map Prod.fst ∨ ∃ n ∈ nets, n.asn = x ∧ x ≠ 0 ∧ x ∉ ls) := by
  intro nets
  induction nets with
  | nil =>
      intro m
      simp [buildFacilityNetsAux]
  | cons net rest ih =>
      intro m
      unfold buildFacilityNetsAux
      by_cases h : net.asn ≠ 0 ∧ net.asn ∉ ls
      · rw [if_pos h, ih, keys_insertOrReplace]
        constructor
        · rintro ((hm | rfl) | ⟨n, hn, hx⟩)
          · exact Or.inl hm
          · exact Or.inr ⟨net, List.mem_cons_self _ _, rfl, h.1, h.2⟩
          · exact Or.inr ⟨n, List.mem_cons_of_mem _ hn, hx⟩
        · rintro (hm | ⟨n, hn, hx⟩)
          · exact Or.inl (Or.inl hm)
          · rcases List.mem_cons.mp hn with rfl | hn
            · exact Or.inl (Or.inr hx.1.symm)
            · exact Or.inr ⟨n, hn, hx⟩
      · rw [if_neg h, ih]
        constructor
        · rintro (hm | ⟨n, hn, hx⟩)
          · exact Or.inl hm
          · exact Or.inr ⟨n, List.mem_cons_of_mem _ hn, hx⟩
        · rintro (hm | ⟨n, hn, hx⟩)
          · exact Or.inl hm
          · rcases List.mem_cons.mp hn with rfl | hn
            · exact absurd ⟨hx.1 ▸ hx.2.1, hx.1 ▸ hx.2.2⟩ h
            · exact Or.inr ⟨n, hn, hx⟩

theorem mem_facilityAsnSet {ls : Finset Int} {allNets : List Net} {x : Int} :
    x ∈ facilityAsnSet ls allNets ↔
      (∃ n ∈ allNets, n.asn = x) ∧ x ≠ 0 ∧ x ∉ ls := by
  unfold facilityAsnSet buildFacilityNets
  rw [List.mem_toFinset, mem_keys_buildFacilityNetsAux]
  simp
  tauto

theorem facilityAsnSet_not_local {ls : Finset Int} {allNets : List Net} {x : Int}
    (h : x ∈ facilityAsnSet ls allNets) : x ∉ ls :=
  (mem_facilityAsnSet.mp h).2.2

theorem facility_lookup_some {ls : Finset Int} {allNets : List Net} {x : Int}
    (h : x ∈ facilityAsnSet ls allNets) :
    ∃ n, lookupNet (buildFacilityNets ls allNets) x = some n := by
  have hx : x ∈ (buildFacilityNets ls allNets).map Prod.fst := by
    unfold facilityAsnSet at h
    exact List.mem_toFinset.mp h
  rcases ho : lookupNet (buildFacilityNets ls allNets) x with _ | n
  · exact absurd hx ((lookupNet_eq_none _ _).mp ho)
  · exact ⟨n, rfl⟩

theorem perm_toFinset {l₁ l₂ : List Int} (h : l₁.Perm l₂) : l₁.toFinset = l₂.toFinset := by
  ext a
  simp [List.mem_toFinset, h.mem_iff]

theorem downstreamChildren_cons_skip (fl : Int → Option Net) (hop d : Int)
    (rest : List Int) (assigned : Finset Int) (h : d ∈ assigned ∨ d = hop) :
    downstreamChildren fl hop (d :: rest) assigned =
      downstreamChildren fl hop rest assigned := by
  simp only [downstreamChildren]
  rw [if_pos h]

theorem downstreamChildren_cons_none (fl : Int → Option Net) (hop d : Int)
    (rest : List Int) (assigned : Finset Int)
    (h : ¬(d ∈ assigned ∨ d = hop)) (hfl : fl d = none) :
    downstreamChildren fl hop (d :: rest) assigned =
      downstreamChildren fl hop rest assigned := by
  simp only [downstreamChildren]
  rw [if_neg h, hfl]

theorem downstreamChildren_cons_some (fl : Int → Option Net) (hop d : Int)
    (rest : List Int) (assigned : Finset Int) (net : Net)
    (h : ¬(d ∈ assigned ∨ d = hop)) (hfl : fl d = some net) :
    downstreamChildren fl hop (d :: rest) assigned =
      (ChildNode.mk d net.name net.info_type "Downstream" ::
        (downstreamChildren fl hop rest (insert d assigned)).1,
       (downstreamChildren fl hop rest (insert d assigned)).2) := by
  simp only [downstreamChildren]
  rw [if_neg h, hfl]

theorem downstreamChildren_spec (fl : Int → Option Net) (hop : Int) :
    ∀ (ds : List Int) (assigned : Finset Int),
      (downstreamChildren fl hop ds assigned).2 =
        assigned ∪ (childAsns (downstreamChildren fl hop ds assigned).1).toFinset ∧
      (childAsns (downstreamChildren fl hop ds assigned).1).Nodup ∧
      ∀ x ∈ childAsns (downstreamChildren fl hop ds assigned).1,
        x ∈ ds ∧ x ∉ assigned ∧ x ≠ hop := by
  intro ds
  induction ds with
  | nil =>
      intro assigned
      refine ⟨by simp [downstreamChildren, childAsns], by simp [downstreamChildren, childAsns], ?_⟩
      intro x hx
      simp [downstreamChildren, childAsns] at hx
  | cons d rest ih =>
      intro assigned
      by_cases h1 : d ∈ assigned ∨ d = hop
      · rw [downstreamChildren_cons_skip fl hop d rest assigned h1]
        obtain ⟨e1, e2, e3⟩ := ih assigned
        exact ⟨e1, e2, fun x hx =>
          ⟨List.mem_cons_of_mem _ (e3 x hx).1, (e3 x hx).2.1, (e3 x hx).2.2⟩⟩
      · cases hfl : fl d with
        | none =>
            rw [downstreamChildren_cons_none fl hop d rest assigned h1 hfl]
            obtain ⟨e1, e2, e3⟩ := ih assigned
            exact ⟨e1, e2, fun x hx =>
              ⟨List.mem_cons_of_mem _ (e3 x hx).1, (e3 x hx).2.1, (e3 x hx).2.2⟩⟩
        | some net =>
            rw [downstreamChildren_cons_some fl hop d rest assigned net h1 hfl]
            push_neg at h1
            obtain ⟨e1, e2, e3⟩ := ih (insert d assigned)
            refine ⟨?_, ?_, ?_⟩
            · simp only [childAsns_cons, List.toFinset_cons]
              rw [Finset.union_insert, e1, Finset.insert_union]
            · simp only [childAsns_cons, List.nodup_cons]
              refine ⟨fun hmem => ?_, e2⟩
              exact (e3 d hmem).2.1 (Finset.mem_insert_self d assigned)
            · intro x hx
              simp only [childAsns_cons] at hx
              rcases List.mem_cons.mp hx with rfl | hres
              · exact ⟨List.mem_cons_self _ _, h1.1, h1.2⟩
              · obtain ⟨hx1, hx2, hx3⟩ := e3 x hres
                refine ⟨List.mem_cons_of_mem _ hx1, fun ha => ?_, hx3⟩
                exact hx2 (Finset.mem_insert_of_mem ha)

theorem mkFacilityPeerNode_shape (fl : Int → Option Net) :
    ∀ (h : Int) (cs : List ChildNode), (mkFacilityPeerNode fl h cs).asn = h ∧
      (mkFacilityPeerNode fl h cs).children = cs ∧
      (mkFacilityPeerNode fl h cs).transit_children = [] :=
  fun _ _ => ⟨rfl, rfl, rfl⟩

theorem mkExternalPeerNode_shape (lookup : Int → List Net) :
    ∀ (h : Int) (cs : List ChildNode), (mkExternalPeerNode lookup h cs).asn = h ∧
      (mkExternalPeerNode lookup h cs).children = cs ∧
      (mkExternalPeerNode lookup h cs).transit_children = [] := by
  intro h cs
  unfold mkExternalPeerNode
  cases lookup h <;> exact ⟨rfl, rfl, rfl⟩

theorem buildPeerNodes_spec (fl : Int → Option Net) (pds : List (Int × Finset Int))
    (facSet : Finset Int) (mkNode : Int → List ChildNode → PeerNode)
    (hmk : ∀ (h : Int) (cs : List ChildNode), (mkNode h cs).asn = h ∧
      (mkNode h cs).children = cs ∧ (mkNode h cs).transit_children = []) :
    ∀ (hops : List Int) (assigned : Finset Int),
      (buildPeerNodes fl pds facSet mkNode hops assigned).1.map PeerNode.asn = hops ∧
      (buildPeerNodes fl pds facSet mkNode hops assigned).2 =
        (assigned ∪ hops.toFinset) ∪
          (allChildAsns (buildPeerNodes fl pds facSet mkNode hops assigned).1).toFinset ∧
      (allChildAsns (buildPeerNodes fl pds facSet mkNode hops assigned).1).Nodup ∧
      (∀ x ∈ allChildAsns (buildPeerNodes fl pds facSet mkNode hops assigned).1,
        x ∈ facSet ∧ x ∉ assigned) ∧
      ∀ p ∈ (buildPeerNodes fl pds facSet mkNode hops assigned).1,
        p.transit_children = [] ∧ List.Sorted childNameLe p.children := by
  intro hops
  induction hops with
  | nil =>
      intro assigned
      refine ⟨rfl, by simp [buildPeerNodes, allChildAsns],
        by simp [buildPeerNodes, allChildAsns], ?_, ?_⟩
      · intro x hx
        simp [buildPeerNodes, allChildAsns] at hx
      · intro p hp
        simp [buildPeerNodes] at hp
  | cons hop rest ih =>
      intro assigned
      have he : buildPeerNodes fl pds facSet mkNode (hop :: rest) assigned =
          (mkNode hop (sortChildren (downstreamChildren fl hop
              (sortFin (dsLookup pds hop ∩ facSet)) assigned).1) ::
            (buildPeerNodes fl pds facSet mkNode rest
              (insert hop (downstreamChildren fl hop
                (sortFin (dsLookup pds hop ∩ facSet)) assigned).2)).1,
           (buildPeerNodes fl pds facSet mkNode rest
              (insert hop (downstreamChildren fl hop
                (sortFin (dsLookup pds hop ∩ facSet)) assigned).2)).2) := rfl
      rw [he]
      obtain ⟨d1, d2, d3⟩ :=
        downstreamChildren_spec fl hop (sortFin (dsLookup pds hop ∩ facSet)) assigned
      obtain ⟨r1, r2, r3, r4, r5⟩ := ih (insert hop (downstreamChildren fl hop
        (sortFin (dsLookup pds hop ∩ facSet)) assigned).2)
      have hperm : (childAsns (sortChildren (downstreamChildren fl hop
          (sortFin (dsLookup pds hop ∩ facSet)) assigned).1)).Perm
          (childAsns (downstreamChildren fl hop
            (sortFin (dsLookup pds hop ∩ facSet)) assigned).1) :=
        (List.perm_insertionSort childNameLe _).map ChildNode.asn
      have hnodeCh : allChildAsns (mkNode hop (sortChildren (downstreamChildren fl hop
          (sortFin (dsLookup pds hop ∩ facSet)) assigned).1) ::
            (buildPeerNodes fl pds facSet mkNode rest
              (insert hop (downstreamChildren fl hop
                (sortFin (dsLookup pds hop ∩ facSet)) assigned).2)).1) =
          childAsns (sortChildren (downstreamChildren fl hop
            (sortFin (dsLookup pds hop ∩ facSet)) assigned).1) ++
          allChildAsns (buildPeerNodes fl pds facSet mkNode rest
            (insert hop (downstreamChildren fl hop
              (sortFin (dsLookup pds hop ∩ facSet)) assigned).2)).1 := by
        rw [allChildAsns_cons, (hmk _ _).2.1]
      refine ⟨?_, ?_, ?_, ?_, ?_⟩
      · simp only [List.map_cons, (hmk _ _).1, r1]
      · rw [hnodeCh, List.toFinset_append, perm_toFinset hperm, r2, d1]
        ext a
        simp only [Finset.mem_union, Finset.mem_insert, List.toFinset_cons]
        tauto
      · rw [hnodeCh]
        refine List.Nodup.append (hperm.symm.nodup d2) r3 ?_
        intro a ha hb
        refine (r4 a hb).2 (Finset.mem_insert_of_mem ?_)
        rw [d1]
        exact Finset.mem_union_right _ (List.mem_toFinset.mpr (hperm.mem_iff.mp ha))
      · rw [hnodeCh]
        intro x hx
        rcases List.mem_append.mp hx with hl | hr
        · obtain ⟨hx1, hx2, _⟩ := d3 x (hperm.mem_iff.mp hl)
          exact ⟨Finset.mem_inter.mp (mem_sortFin.mp hx1) |>.2, hx2⟩
        · refine ⟨(r4 x hr).1, fun ha => ?_⟩
          refine (r4 x hr).2 (Finset.mem_insert_of_mem ?_)
          rw [d1]
          exact Finset.mem_union_left _ ha
      · intro p hp
        rcases List.mem_cons.mp hp with rfl | hres
        · refine ⟨(hmk _ _).2.2, ?_⟩
          rw [(hmk _ _).2.1]
          exact List.sorted_insertionSort childNameLe _
        · exact r5 p hres

theorem findClaimPeer_mem :
    ∀ (pds : List (Int × Finset Int)) (nodeAsns : List Int) (t p : Int),
      findClaimPeer pds nodeAsns t = some p → p ∈ nodeAsns := by
  intro pds
  induction pds with
  | nil =>
      intro nodeAsns t p h
      simp [findClaimPeer] at h
  | cons q rest ih =>
      intro nodeAsns t p h
      obtain ⟨k, ds⟩ := q
      unfold findClaimPeer at h
      by_cases hc : t ∈ ds ∧ k ∈ nodeAsns
      · rw [if_pos hc] at h
        injection h with h2
        subst h2
        exact hc.2
      · rw [if_neg hc] at h
        exact ih nodeAsns t p h

theorem addTransitChild_map_asn :
    ∀ (ns : List PeerNode) (a : Int) (c : ChildNode),
      (addTransitChild ns a c).map PeerNode.asn = ns.map PeerNode.asn := by
  intro ns
  induction ns with
  | nil =>
      intro a c
      rfl
  | cons n rest ih =>
      intro a c
      unfold addTransitChild
      by_cases h : n.asn = a
      · rw [if_pos h]
        simp
      · rw [if_neg h]
        simp [ih]

theorem addTransitChild_allChild :
    ∀ (ns : List PeerNode) (a : Int) (c : ChildNode),
      allChildAsns (addTransitChild ns a c) = allChildAsns ns := by
  intro ns
  induction ns with
  | nil =>
      intro a c
      rfl
  | cons n rest ih =>
      intro a c
      unfold addTransitChild
      by_cases h : n.asn = a
      · rw [if_pos h, allChildAsns_cons, allChildAsns_cons]
      · rw [if_neg h, allChildAsns_cons, allChildAsns_cons, ih]

theorem addTransitChild_children :
    ∀ (ns : List PeerNode) (a : Int) (c : ChildNode) (p : PeerNode),
      p ∈ addTransitChild ns a c → ∃ q ∈ ns, p.children = q.children := by
  intro ns
  induction ns with
  | nil =>
      intro a c p hp
      simp [addTransitChild] at hp
  | cons n rest ih =>
      intro a c p hp
      unfold addTransitChild at hp
      by_cases h : n.asn = a
      · rw [if_pos h] at hp
        rcases List.mem_cons.mp hp with rfl | hres
        · exact ⟨n, List.mem_cons_self _ _, rfl⟩
        · exact ⟨p, List.mem_cons_of_mem _ hres, rfl⟩
      · rw [if_neg h] at hp
        rcases List.mem_cons.mp hp with rfl | hres
        · exact ⟨p, List.mem_cons_self _ _, rfl⟩
        · obtain ⟨q, hq, he⟩ := ih a c p hres
          exact ⟨q, List.mem_cons_of_mem _ hq, he⟩

theorem addTransitChild_allTransit :
    ∀ (ns : List PeerNode) (a : Int) (c : ChildNode), a ∈ ns.map PeerNode.asn →
      (allTransitAsns (addTransitChild ns a c)).Perm (c.asn :: allTransitAsns ns) := by
  intro ns
  induction ns with
  | nil =>
      intro a c h
      simp at h
  | cons n rest ih =>
      intro a c h
      unfold addTransitChild
      by_cases hn : n.asn = a
      · rw [if_pos hn, allTransitAsns_cons, allTransitAsns_cons]
        simp only [childAsns, List.map_append]
        rw [List.append_assoc]
        exact List.perm_middle
      · rw [if_neg hn, allTransitAsns_cons, allTransitAsns_cons]
        have hmem : a ∈ rest.map PeerNode.asn := by
          rw [List.map_cons, List.mem_cons] at h
          rcases h with he | hm
          · exact absurd he.symm hn
          · exact hm
        exact ((ih a c hmem).append_left _).trans List.perm_middle

theorem assignTransit_cons_some (fl : Int → Option Net) (pds : List (Int × Finset Int))
    (t : Int) (rest : List Int) (nodes : List PeerNode) (p : Int)
    (h : findClaimPeer pds (nodes.map PeerNode.asn) t = some p) :
    assignTransit fl pds (t :: rest) nodes =
      assignTransit fl pds rest (addTransitChild nodes p
        (ChildNode.mk t ((fl t).getD (defaultNet t)).name
          ((fl t).getD (defaultNet t)).info_type "Transit Reachable")) := by
  simp only [assignTransit]
  rw [h]

theorem assignTransit_cons_none (fl : Int → Option Net) (pds : List (Int × Finset Int))
    (t : Int) (rest : List Int) (nodes : List PeerNode)
    (h : findClaimPeer pds (nodes.map PeerNode.asn) t = none) :
    assignTransit fl pds (t :: rest) nodes =
      ((assignTransit fl pds rest nodes).1,
        ChildNode.mk t ((fl t).getD (defaultNet t)).name
          ((fl t).getD (defaultNet t)).info_type "Unresolved" ::
        (assignTransit fl pds rest nodes).2) := by
  simp only [assignTransit]
  rw [h]

theorem assignTransit_spec (fl : Int → Option Net) (pds : List (Int × Finset Int)) :
    ∀ (ts : List Int) (nodes : List PeerNode),
      (assignTransit fl pds ts nodes).1.map PeerNode.asn = nodes.map PeerNode.asn ∧
      allChildAsns (assignTransit fl pds ts nodes).1 = allChildAsns nodes ∧
      (∀ p ∈ (assignTransit fl pds ts nodes).1, ∃ q ∈ nodes, p.children = q.children) ∧
      (allTransitAsns (assignTransit fl pds ts nodes).1 ++
        childAsns (assignTransit fl pds ts nodes).2).Perm (allTransitAsns nodes ++ ts) ∧
      (childAsns (assignTransit fl pds ts nodes).2).Sublist ts := by
  intro ts
  induction ts with
  | nil =>
      intro nodes
      refine ⟨rfl, rfl, fun p hp => ⟨p, hp, rfl⟩, ?_, ?_⟩
      · simp [assignTransit, childAsns]
      · simp [assignTransit, childAsns]
  | cons t rest ih =>
      intro nodes
      cases hf : findClaimPeer pds (nodes.map PeerNode.asn) t with
      | some p =>
          rw [assignTransit_cons_some fl pds t rest nodes p hf]
          obtain ⟨i1, i2, i3, i4, i5⟩ := ih (addTransitChild nodes p
            (ChildNode.mk t ((fl t).getD (defaultNet t)).name
              ((fl t).getD (defaultNet t)).info_type "Transit Reachable"))
          have hmapeq := addTransitChild_map_asn nodes p
            (ChildNode.mk t ((fl t).getD (defaultNet t)).name
              ((fl t).getD (defaultNet t)).info_type "Transit Reachable")
          refine ⟨?_, ?_, ?_, ?_, ?_⟩
          · rw [i1]
            exact hmapeq
          · rw [i2]
            exact addTransitChild_allChild nodes p _
          · intro q hq
            obtain ⟨q2, hq2, he⟩ := i3 q hq
            obtain ⟨q3, hq3, he2⟩ := addTransitChild_children nodes p _ q2 hq2
            exact ⟨q3, hq3, he.trans he2⟩
          · have hmem : p ∈ nodes.map PeerNode.asn := findClaimPeer_mem pds _ t p hf
            have hT := addTransitChild_allTransit nodes p
              (ChildNode.mk t ((fl t).getD (defaultNet t)).name
                ((fl t).getD (defaultNet t)).info_type "Transit Reachable") hmem
            refine i4.trans ?_
            refine (hT.append_right rest).trans ?_
            exact List.perm_middle.symm
          · exact i5.trans (List.sublist_cons_self t rest)
      | none =>
          rw [assignTransit_cons_none fl pds t rest nodes hf]
          obtain ⟨i1, i2, i3, i4, i5⟩ := ih nodes
          refine ⟨i1, i2, i3, ?_, ?_⟩
          · rw [childAsns_cons]
            refine List.perm_middle.trans ?_
            refine (List.Perm.cons _ i4).trans ?_
            exact List.perm_middle.symm
          · rw [childAsns_cons]
            exact List.Sublist.cons₂ _ i5

theorem allTransitAsns_eq_nil {ns : List PeerNode}
    (h : ∀ p ∈ ns, p.transit_children = []) : allTransitAsns ns = [] := by
  induction ns with
  | nil => rfl
  | cons n rest ih =>
      rw [allTransitAsns_cons, h n (List.mem_cons_self _ _), ih
        (fun p hp => h p (List.mem_cons_of_mem _ hp))]
      rfl

theorem map_sortTransit_map_asn (ns : List PeerNode) :
    (ns.map sortTransit).map PeerNode.asn = ns.map PeerNode.asn := by
  induction ns with
  | nil => rfl
  | cons n rest ih => simp [sortTransit, ih]

theorem map_sortTransit_allChild (ns : List PeerNode) :
    allChildAsns (ns.map sortTransit) = allChildAsns ns := by
  induction ns with
  | nil => rfl
  | cons n rest ih =>
      rw [List.map_cons, allChildAsns_cons, allChildAsns_cons, ih]
      rfl

theorem map_sortTransit_allTransit (ns : List PeerNode) :
    (allTransitAsns (ns.map sortTransit)).Perm (allTransitAsns ns) := by
  induction ns with
  | nil => exact List.Perm.refl _
  | cons n rest ih =>
      rw [List.map_cons, allTransitAsns_cons, allTransitAsns_cons]
      refine List.Perm.append ?_ ih
      exact (List.perm_insertionSort childNameLe _).map ChildNode.asn

theorem map_sortTransit_children (ns : List PeerNode) :
    ∀ p ∈ ns.map sortTransit, ∃ q ∈ ns, p.children = q.children ∧
      p.transit_children = sortChildren q.transit_children := by
  intro p hp
  obtain ⟨q, hq, rfl⟩ := List.mem_map.mp hp
  exact ⟨q, hq, rfl, rfl⟩

theorem assembleCore_spec (ls : Finset Int) (fl : Int → Option Net) (facSet : Finset Int)
    (directPeers : Finset Int) (pds : List (Int × Finset Int))
    (peerNetLookup : Int → List Net)
    (hdisj : ∀ x ∈ facSet, x ∉ ls) :
    ((assembleCore ls fl facSet directPeers pds peerNetLookup).1.map PeerNode.asn).Nodup ∧
    ((assembleCore ls fl facSet directPeers pds peerNetLookup).1.map PeerNode.asn).toFinset =
      directPeers \ ls ∧
    (allChildAsns (assembleCore ls fl facSet directPeers pds peerNetLookup).1 ++
      (allTransitAsns (assembleCore ls fl facSet directPeers pds peerNetLookup).1 ++
        childAsns (assembleCore ls fl facSet directPeers pds peerNetLookup).2)).Nodup ∧
    (∀ x ∈ allChildAsns (assembleCore ls fl facSet directPeers pds peerNetLookup).1 ++
      (allTransitAsns (assembleCore ls fl facSet directPeers pds peerNetLookup).1 ++
        childAsns (assembleCore ls fl facSet directPeers pds peerNetLookup).2), x ∈ facSet) ∧
    ((allChildAsns (assembleCore ls fl facSet directPeers pds peerNetLookup).1 ++
      (allTransitAsns (assembleCore ls fl facSet directPeers pds peerNetLookup).1 ++
        childAsns (assembleCore ls fl facSet directPeers pds peerNetLookup).2)).toFinset ∪
      (directPeers \ ls) = facSet ∪ (directPeers \ ls)) ∧
    (∀ p ∈ (assembleCore ls fl facSet directPeers pds peerNetLookup).1,
      List.Sorted childNameLe p.children ∧ List.Sorted childNameLe p.transit_children) ∧
    List.Sorted (· ≤ ·)
      (childAsns (assembleCore ls fl facSet directPeers pds peerNetLookup).2) := by
  unfold assembleCore
  dsimp only
  set hops1 := sortFin (directPeers ∩ facSet) with hh1
  set hops2 := sortFin ((directPeers \ facSet) \ ls) with hh2
  set p1 := buildPeerNodes fl pds facSet (mkFacilityPeerNode fl) hops1 ls with hp1
  set p2 := buildPeerNodes fl pds facSet (mkExternalPeerNode peerNetLookup) hops2 p1.2 with hp2
  set nodes := p1.1 ++ p2.1 with hnodes
  set ts := sortFin (facSet \ p2.2) with hts
  set p3 := assignTransit fl pds ts nodes with hp3
  obtain ⟨b11, b12, b13, b14, b15⟩ :=
    buildPeerNodes_spec fl pds facSet (mkFacilityPeerNode fl)
      (mkFacilityPeerNode_shape fl) hops1 ls
  obtain ⟨b21, b22, b23, b24, b25⟩ :=
    buildPeerNodes_spec fl pds facSet (mkExternalPeerNode peerNetLookup)
      (mkExternalPeerNode_shape peerNetLookup) hops2 p1.2
  obtain ⟨a1, a2, a3, a4, a5⟩ := assignTransit_spec fl pds ts nodes
  rw [← hp1] at b11 b12 b13 b14 b15
  rw [← hp2] at b21 b22 b23 b24 b25
  rw [← hp3] at a1 a2 a3 a4 a5
  have hts1 : hops1.toFinset = directPeers ∩ facSet := by
    rw [hh1]
    exact sortFin_toFinset _
  have hts2 : hops2.toFinset = (directPeers \ facSet) \ ls := by
    rw [hh2]
    exact sortFin_toFinset _
  have hA : p3.1.map PeerNode.asn = hops1 ++ hops2 := by
    rw [a1, hnodes, List.map_append, b11, b21]
  have hAnodup : (hops1 ++ hops2).Nodup := by
    refine List.Nodup.append ?_ ?_ ?_
    · rw [hh1]
      exact sortFin_nodup _
    · rw [hh2]
      exact sortFin_nodup _
    · intro x hx1 hx2
      have h1 := Finset.mem_inter.mp (by rw [hh1] at hx1; exact mem_sortFin.mp hx1)
      have h2 := Finset.mem_sdiff.mp (by rw [hh2] at hx2; exact mem_sortFin.mp hx2)
      exact (Finset.mem_sdiff.mp h2.1).2 h1.2
  have hAset : (hops1 ++ hops2).toFinset = directPeers \ ls := by
    rw [List.toFinset_append, hts1, hts2]
    ext a
    simp only [Finset.mem_union, Finset.mem_inter, Finset.mem_sdiff]
    constructor
    · rintro (⟨hd, hf⟩ | ⟨⟨hd, _⟩, hl⟩)
      · exact ⟨hd, hdisj a hf⟩
      · exact ⟨hd, hl⟩
    · rintro ⟨hd, hl⟩
      by_cases hf : a ∈ facSet
      · exact Or.inl ⟨hd, hf⟩
      · exact Or.inr ⟨⟨hd, hf⟩, hl⟩
  have hDeq : allChildAsns nodes = allChildAsns p1.1 ++ allChildAsns p2.1 := by
    rw [hnodes, allChildAsns_append]
  have hDnodup : (allChildAsns nodes).Nodup := by
    rw [hDeq]
    refine List.Nodup.append b13 b23 ?_
    intro x hx1 hx2
    refine (b24 x hx2).2 ?_
    rw [b12]
    exact Finset.mem_union_right _ (List.mem_toFinset.mpr hx1)
  have hDfac : ∀ x ∈ allChildAsns nodes, x ∈ facSet ∧ x ∈ p2.2 ∧ x ∉ ls := by
    intro x hx
    rw [hDeq] at hx
    rcases List.mem_append.mp hx with hx1 | hx2
    · have h1 := b14 x hx1
      refine ⟨h1.1, ?_, h1.2⟩
      rw [b22]
      refine Finset.mem_union_left _ (Finset.mem_union_left _ ?_)
      rw [b12]
      exact Finset.mem_union_right _ (List.mem_toFinset.mpr hx1)
    · have h2 := b24 x hx2
      refine ⟨h2.1, ?_, ?_⟩
      · rw [b22]
        exact Finset.mem_union_right _ (List.mem_toFinset.mpr hx2)
      · intro hl
        refine h2.2 ?_
        rw [b12]
        exact Finset.mem_union_left _ (Finset.mem_union_left _ hl)
  have hDcore : allChildAsns (p3.1.map sortTransit) = allChildAsns nodes := by
    rw [map_sortTransit_allChild, a2]
  have hTnil : allTransitAsns nodes = [] := by
    refine allTransitAsns_eq_nil ?_
    intro p hp
    rw [hnodes] at hp
    rcases List.mem_append.mp hp with h | h
    · exact (b15 p h).1
    · exact (b25 p h).1
  have hTU : (allTransitAsns (p3.1.map sortTransit) ++ childAsns p3.2).Perm ts := by
    refine ((map_sortTransit_allTransit p3.1).append_right _).trans ?_
    have h4 := a4
    rw [hTnil] at h4
    simpa using h4
  have hTUnodup : (allTransitAsns (p3.1.map sortTransit) ++ childAsns p3.2).Nodup := by
    refine hTU.symm.nodup ?_
    rw [hts]
    exact sortFin_nodup _
  have hTUmem : ∀ x ∈ allTransitAsns (p3.1.map sortTransit) ++ childAsns p3.2,
      x ∈ facSet ∧ x ∉ p2.2 := by
    intro x hx
    have hxts := hTU.mem_iff.mp hx
    rw [hts] at hxts
    exact Finset.mem_sdiff.mp (mem_sortFin.mp hxts)
  refine ⟨?_, ?_, ?_, ?_, ?_, ?_, ?_⟩
  · rw [map_sortTransit_map_asn, hA]
    exact hAnodup
  · rw [map_sortTransit_map_asn, hA]
    exact hAset
  · refine List.Nodup.append ?_ hTUnodup ?_
    · rw [hDcore]
      exact hDnodup
    · intro x hx1 hx2
      exact (hTUmem x hx2).2 (hDfac x (hDcore ▸ hx1)).2.1
  · intro x hx
    rcases List.mem_append.mp hx with hx1 | hx2
    · exact (hDfac x (hDcore ▸ hx1)).1
    · exact (hTUmem x hx2).1
  · rw [List.toFinset_append, perm_toFinset hTU]
    have htsF : ts.toFinset = facSet \ p2.2 := by
      rw [hts]
      exact sortFin_toFinset _
    rw [htsF]
    ext a
    simp only [Finset.mem_union, Finset.mem_sdiff, List.mem_toFinset]
    constructor
    · rintro ((hD | ⟨hf, _⟩) | hrest)
      · exact Or.inl (hDfac a (hDcore ▸ hD)).1
      · exact Or.inl hf
      · exact Or.inr hrest
    · rintro (hf | hrest)
      · by_cases hA2 : a ∈ p2.2
        · rw [b22] at hA2
          rcases Finset.mem_union.mp hA2 with hA3 | hD2
          · rcases Finset.mem_union.mp hA3 with hA4 | hH2
            · rw [b12] at hA4
              rcases Finset.mem_union.mp hA4 with hA5 | hD1
              · rcases Finset.mem_union.mp hA5 with hl | hH1
                · exact absurd hl (hdisj a hf)
                · rw [hts1] at hH1
                  exact Or.inr ⟨(Finset.mem_inter.mp hH1).1, hdisj a hf⟩
              · refine Or.inl (Or.inl ?_)
                rw [hDcore, hDeq]
                exact List.mem_append.mpr (Or.inl (List.mem_toFinset.mp hD1))
            · rw [hts2] at hH2
              exact absurd hf (Finset.mem_sdiff.mp (Finset.mem_sdiff.mp hH2).1).2
          · refine Or.inl (Or.inl ?_)
            rw [hDcore, hDeq]
            exact List.mem_append.mpr (Or.inr (List.mem_toFinset.mp hD2))
        · exact Or.inl (Or.inr ⟨hf, hA2⟩)
      · exact Or.inr hrest
  · intro p hp
    obtain ⟨q, hq, hch, htr⟩ := map_sortTransit_children p3.1 p hp
    obtain ⟨r, hr, hcq⟩ := a3 q hq
    constructor
    · rw [hch, hcq]
      rw [hnodes] at hr
      rcases List.mem_append.mp hr with h | h
      · exact (b15 r h).2
      · exact (b25 r h).2
    · rw [htr]
      exact List.sorted_insertionSort childNameLe _
  · have hsorted : List.Sorted (· ≤ ·) ts := by
      rw [hts]
      exact sortFin_sorted _
    exact List.Pairwise.sublist a5 hsorted

theorem facilityAsnSet_eq {localAsns : List Int} {allNets : List Net}
    (h0 : ∀ n ∈ allNets, n.asn ≠ 0) :
    facilityAsnSet localAsns.toFinset allNets =
      (allNets.map Net.asn).toFinset \ localAsns.toFinset := by
  ext a
  rw [mem_facilityAsnSet]
  simp only [Finset.mem_sdiff, List.mem_toFinset, List.mem_map]
  constructor
  · rintro ⟨⟨n, hn, rfl⟩, _, hl⟩
    exact ⟨⟨n, hn, rfl⟩, hl⟩
  · rintro ⟨⟨n, hn, rfl⟩, hl⟩
    exact ⟨⟨n, hn, rfl⟩, h0 n hn, hl⟩

/-! Claim C1. -/

/-- C1 fails on the code: for local ASN 1, co-located networks AS100 and
AS200, global direct peers 100, 200 and 300 and downstream map 100 to the
singleton 200, the tree carries the ASN list [300, 100, 200, 200]: the ASN
200 appears twice (once as a Direct Peer node and once as a Downstream
child of AS100, since the facility pass never re-checks a hop against the
assigned set), and the external 1-hop peer 300, which is not co-located,
also becomes a Direct Peer node — so the union is neither duplicate-free
nor equal to the co-located-minus-local set. -/
theorem c1_counterexample :
    treeAsnList c1Tree = [300, 100, 200, 200] ∧
    ¬ ((treeAsnList c1Tree).Nodup ∧
        (treeAsnList c1Tree).toFinset =
          (c1Nets.map Net.asn).toFinset \ ([1] : List Int).toFinset) := by
  refine ⟨by decide, by decide⟩

/-- C1 (amended): for every location query that resolves a non-empty
facility set, when every co-located record carries a real (non-zero) ASN,
the tree returned by get_routing_flow satisfies: the Direct Peer nodes
carry, without repetition, exactly the global direct peers minus the local
ASNs (external 1-hop peers included, co-located or not); the Downstream,
Transit Reachable and Unresolved children together carry, without
repetition, only ASNs of co-located networks; and the set of all ASNs in
the tree equals exactly the co-located-minus-local set united with the
direct-peers-minus-local set. An ASN can therefore appear at most twice,
and only as a Direct Peer node that is simultaneously some earlier peer's
Downstream child. -/
theorem c1_amended (targetFacIds localAsns : List Int) (allNets : List Net)
    (directPeers : Finset Int) (pds : List (Int × Finset Int))
    (peerNetLookup : Int → List Net) (location : String) (t : RoutingTree)
    (hok : getRoutingFlow targetFacIds localAsns allNets directPeers pds peerNetLookup location
      = Except.ok t)
    (h0 : ∀ n ∈ allNets, n.asn ≠ 0) :
    ((directAsnList t).Nodup ∧
      (directAsnList t).toFinset = directPeers \ localAsns.toFinset) ∧
    ((downstreamAsnList t ++ (transitAsnList t ++ unresolvedAsnList t)).Nodup ∧
      ∀ x ∈ downstreamAsnList t ++ (transitAsnList t ++ unresolvedAsnList t),
        x ∈ (allNets.map Net.asn).toFinset \ localAsns.toFinset) ∧
    (treeAsnList t).toFinset =
      ((allNets.map Net.asn).toFinset \ localAsns.toFinset) ∪
        (directPeers \ localAsns.toFinset) := by
  unfold getRoutingFlow at hok
  by_cases hfi : targetFacIds = []
  · rw [if_pos hfi] at hok
    cases hok
  · rw [if_neg hfi] at hok
    injection hok with hok
    subst hok
    obtain ⟨s1, s2, s3, s4, s5, _s6, _s7⟩ := assembleCore_spec localAsns.toFinset
      (lookupNet (buildFacilityNets localAsns.toFinset allNets))
      (facilityAsnSet localAsns.toFinset allNets) directPeers pds peerNetLookup
      (fun x hx => facilityAsnSet_not_local hx)
    have hfeq : facilityAsnSet localAsns.toFinset allNets =
        (allNets.map Net.asn).toFinset \ localAsns.toFinset := facilityAsnSet_eq h0
    have hsp : (sortPeers (assembleCore localAsns.toFinset
        (lookupNet (buildFacilityNets localAsns.toFinset allNets))
        (facilityAsnSet localAsns.toFinset allNets) directPeers pds peerNetLookup).1).Perm
        (assembleCore localAsns.toFinset
          (lookupNet (buildFacilityNets localAsns.toFinset allNets))
          (facilityAsnSet localAsns.toFinset allNets) directPeers pds peerNetLookup).1 :=
      List.perm_insertionSort peerNameLe _
    have hdirp := hsp.map PeerNode.asn
    have hDp := allChildAsns_perm hsp
    have hTp := allTransitAsns_perm hsp
    have hbig := hDp.append (hTp.append_right (childAsns (assembleCore localAsns.toFinset
      (lookupNet (buildFacilityNets localAsns.toFinset allNets))
      (facilityAsnSet localAsns.toFinset allNets) directPeers pds peerNetLookup).2))
    refine ⟨⟨hdirp.symm.nodup s1, ?_⟩, ⟨hbig.symm.nodup s3, ?_⟩, ?_⟩
    · rw [show directAsnList (assembleTree localAsns allNets directPeers pds peerNetLookup
          location) = (sortPeers (assembleCore localAsns.toFinset
            (lookupNet (buildFacilityNets localAsns.toFinset allNets))
            (facilityAsnSet localAsns.toFinset allNets) directPeers pds peerNetLookup).1).map
          PeerNode.asn from rfl]
      rw [perm_toFinset hdirp, s2]
    · intro x hx
      rw [← hfeq]
      exact s4 x (hbig.mem_iff.mp hx)
    · have e1 : directAsnList (assembleTree localAsns allNets directPeers pds peerNetLookup
          location) = (sortPeers (assembleCore localAsns.toFinset
            (lookupNet (buildFacilityNets localAsns.toFinset allNets))
            (facilityAsnSet localAsns.toFinset allNets) directPeers pds peerNetLookup).1).map
          PeerNode.asn := rfl
      have e2 : downstreamAsnList (assembleTree localAsns allNets directPeers pds peerNetLookup
          location) = allChildAsns (sortPeers (assembleCore localAsns.toFinset
            (lookupNet (buildFacilityNets localAsns.toFinset allNets))
            (facilityAsnSet localAsns.toFinset allNets) directPeers pds peerNetLookup).1) := rfl
      have e3 : transitAsnList (assembleTree localAsns allNets directPeers pds peerNetLookup
          location) = allTransitAsns (sortPeers (assembleCore localAsns.toFinset
            (lookupNet (buildFacilityNets localAsns.toFinset allNets))
            (facilityAsnSet localAsns.toFinset allNets) directPeers pds peerNetLookup).1) := rfl
      have e4 : unresolvedAsnList (assembleTree localAsns allNets directPeers pds peerNetLookup
          location) = childAsns (assembleCore localAsns.toFinset
            (lookupNet (buildFacilityNets localAsns.toFinset allNets))
            (facilityAsnSet localAsns.toFinset allNets) directPeers pds peerNetLookup).2 := rfl
      rw [treeAsnList, List.append_assoc, List.append_assoc, e1, e2, e3, e4,
        List.toFinset_append, perm_toFinset hdirp, s2, perm_toFinset hbig,
        Finset.union_comm, s5, hfeq]

/-- C1 witness: the amended statement applied at the concrete
counterexample inputs. -/
theorem c1_amended_witness :
    (directAsnList c1Tree).toFinset =
      ({100, 200, 300} : Finset Int) \ ([1] : List Int).toFinset ∧
    (treeAsnList c1Tree).toFinset =
      ((c1Nets.map Net.asn).toFinset \ ([1] : List Int).toFinset) ∪
        (({100, 200, 300} : Finset Int) \ ([1] : List Int).toFinset) :=
  ⟨(c1_amended [7] [1] c1Nets {100, 200, 300} [(100, {200})] c1Lookup "Denver" c1Tree
      rfl (by decide)).1.2,
   (c1_amended [7] [1] c1Nets {100, 200, 300} [(100, {200})] c1Lookup "Denver" c1Tree
      rfl (by decide)).2.2⟩

/-! Claim C6. -/

/-- C6 fails on the code: with two co-located networks AS100 named Zebra
and AS200 named Alpha and no direct peers, both land in the Unresolved
group, which the source builds from sorted(unresolved_asns) — ASN order —
so the names come out as [Zebra, Alpha], not in ascending name order. -/
theorem c6_counterexample :
    c6Tree.unresolved.map ChildNode.name = ["Zebra", "Alpha"] ∧
    ¬ List.Sorted (fun a b => nameKey a ≤ nameKey b)
      (c6Tree.unresolved.map ChildNode.name) := by
  refine ⟨by decide, by decide⟩

/-- C6 (amended): in the assembled tree the Direct Peer list, each peer's
Downstream children and each peer's Transit Reachable children are ordered
by display name, case-sensitive (code-point) ascending; the Unresolved
group however is ordered by ASN ascending, not by name. The build is a
pure function of configuration and upstream data, so two runs over the
same inputs produce identical trees. -/
theorem c6_amended (localAsns : List Int) (allNets : List Net) (directPeers : Finset Int)
    (pds : List (Int × Finset Int)) (peerNetLookup : Int → List Net) (location : String) :
    List.Sorted peerNameLe
      (assembleTree localAsns allNets directPeers pds peerNetLookup location).children ∧
    (∀ p ∈ (assembleTree localAsns allNets directPeers pds peerNetLookup location).children,
      List.Sorted childNameLe p.children ∧ List.Sorted childNameLe p.transit_children) ∧
    List.Sorted (· ≤ ·)
      ((assembleTree localAsns allNets directPeers pds peerNetLookup location).unresolved.map
        ChildNode.asn) := by
  obtain ⟨_, _, _, _, _, s6, s7⟩ := assembleCore_spec localAsns.toFinset
    (lookupNet (buildFacilityNets localAsns.toFinset allNets))
    (facilityAsnSet localAsns.toFinset allNets) directPeers pds peerNetLookup
    (fun x hx => facilityAsnSet_not_local hx)
  refine ⟨?_, ?_, ?_⟩
  · exact List.sorted_insertionSort peerNameLe _
  · intro p hp
    exact s6 p ((List.perm_insertionSort peerNameLe _).mem_iff.mp hp)
  · exact s7

/-- C6 witness: the amended ordering facts at the concrete inputs of the
counterexample, where the Unresolved ASN order is indeed ascending. -/
theorem c6_amended_witness :
    List.Sorted (· ≤ ·) (c6Tree.unresolved.map ChildNode.asn) :=
  (c6_amended [1] c6Nets ∅ [] (fun _ => []) "Denver").2.2

end BgpAudit
